import Mathlib

/-!
Verification of the DILSE sign-image lookup app (`src/App.tsx`).

The app is a single React component. Its behavioural core is:

* `handleSubmit` (App.tsx lines 85-96): normalizes the raw input with
  `searchTerm.trim().toLowerCase()`; an empty result clears the image URL
  and the submitted term, a non-empty result stores the cleaned term and
  sets the URL
  `https://fundacioncnse-dilse.org/bddilse/images/stories/<encodeURIComponent(term)>.png`.
* `ImageDisplay` (App.tsx lines 19-75): local state `error` / `isLoading`;
  a `useEffect` keyed on `[imageUrl]` resets `error := null` and sets
  `isLoading := true` when the URL changes to a non-null value, and clears
  both when it changes to null.  React compares the dependency with
  value equality on strings, so the effect does not re-run when a submission
  produces the same URL string as before.
* `handleImageError` / `handleImageLoad` (App.tsx lines 41-48): callbacks of
  the single `<img>` element.  The browser delivers a load or error event
  only for the element's current `src`; changing `src` abandons the
  in-flight load, so a callback always corresponds to the current URL.
  The embedding models this by tagging image events with the URL they are
  for and ignoring events whose URL does not match the current one.

Strings are modelled as `List Char`, i.e. lists of Unicode scalar values.
`toLowerCase` is modelled on its ASCII action (the only one the repository's
behaviour depends on).  `encodeURIComponent` is modelled per ECMA-262:
characters outside the unreserved set are UTF-8 encoded and each byte is
written `%XX` with uppercase hex digits.
-/

/-- Whitespace as recognised by JavaScript `String.prototype.trim`:
tab, LF, VT, FF, CR, space, NBSP, and the Unicode space separators,
line/paragraph separators and BOM. -/
def isJsSpace (c : Char) : Bool :=
  let n := c.toNat
  n == 9 || n == 10 || n == 11 || n == 12 || n == 13 || n == 32 ||
  n == 160 || n == 5760 || (8192 ≤ n && n ≤ 8202) ||
  n == 8232 || n == 8233 || n == 8239 || n == 8287 || n == 12288 || n == 65279

/-- Model of `String.prototype.trim`: drop leading and trailing whitespace. -/
def trim (s : List Char) : List Char :=
  (((s.dropWhile isJsSpace).reverse).dropWhile isJsSpace).reverse

/-- Single-character lowercasing, the ASCII action of
`String.prototype.toLowerCase`. -/
def toLowerChar (c : Char) : Char :=
  if 65 ≤ c.toNat ∧ c.toNat ≤ 90 then Char.ofNat (c.toNat + 32) else c

/-- Model of `String.prototype.toLowerCase` (ASCII action). -/
def toLowerCase (s : List Char) : List Char :=
  s.map toLowerChar

/-- The term normalization performed by `handleSubmit`
(App.tsx line 87): `searchTerm.trim().toLowerCase()`. -/
def cleanTerm (s : List Char) : List Char :=
  toLowerCase (trim s)

/-- Characters that `encodeURIComponent` leaves unescaped (ECMA-262
`uriUnescaped`): ASCII letters, digits, and `- _ . ! ~ * ( )` and the
apostrophe. -/
def isUnreservedChar (c : Char) : Bool :=
  let n := c.toNat
  (65 ≤ n && n ≤ 90) || (97 ≤ n && n ≤ 122) || (48 ≤ n && n ≤ 57) ||
  n == 45 || n == 95 || n == 46 || n == 33 || n == 126 ||
  n == 42 || n == 39 || n == 40 || n == 41

/-- UTF-8 encoding of one Unicode scalar value as a list of byte values. -/
def utf8Bytes (n : Nat) : List Nat :=
  if n < 128 then [n]
  else if n < 2048 then [192 + n / 64, 128 + n % 64]
  else if n < 65536 then [224 + n / 4096, 128 + n / 64 % 64, 128 + n % 64]
  else [240 + n / 262144, 128 + n / 4096 % 64, 128 + n / 64 % 64, 128 + n % 64]

/-- Uppercase hexadecimal digit for a value below 16. -/
def hexDigitChar (n : Nat) : Char :=
  if n < 10 then Char.ofNat (48 + n) else Char.ofNat (55 + n)

/-- Percent-escape of one byte: `%` followed by two uppercase hex digits. -/
def pctByte (b : Nat) : List Char :=
  ['%', hexDigitChar (b / 16), hexDigitChar (b % 16)]

/-- Encoding of one character by `encodeURIComponent`: unreserved characters
stand for themselves, every other character becomes the percent-escapes of
its UTF-8 bytes. -/
def encodeChar (c : Char) : List Char :=
  if isUnreservedChar c then [c] else (utf8Bytes c.toNat).flatMap pctByte

/-- Model of JavaScript `encodeURIComponent` on a sequence of Unicode
scalar values. -/
def encodeURIComponent (s : List Char) : List Char :=
  (s.map encodeChar).flatten

/-- Numeric value of a hexadecimal digit character, `none` otherwise. -/
def hexVal (c : Char) : Option Nat :=
  let n := c.toNat
  if 48 ≤ n && n ≤ 57 then some (n - 48)
  else if 65 ≤ n && n ≤ 70 then some (n - 55)
  else if 97 ≤ n && n ≤ 102 then some (n - 87)
  else none

/-- Percent-decoding to a byte stream: `%XY` becomes the byte `16*X + Y`,
any other character stands for its own code point. -/
def pctDecodeBytes : List Char → Option (List Nat)
  | [] => some []
  | c :: rest =>
    if c = '%' then
      match rest with
      | h :: l :: rest2 =>
        match hexVal h, hexVal l with
        | some hv, some lv =>
          (pctDecodeBytes rest2).map fun bs => (16 * hv + lv) :: bs
        | _, _ => none
      | _ => none
    else (pctDecodeBytes rest).map fun bs => c.toNat :: bs

/-- UTF-8 decoding of a byte stream, written as a byte-at-a-time state
machine.  The state is `none` between characters, or `some (k, acc)` when
`k` continuation bytes are still expected and `acc` holds the bits read so
far.  A lead byte `110xxxxx`, `1110xxxx` or `11110xxx` opens a 2-, 3- or
4-byte sequence; a continuation byte `10xxxxxx` contributes six bits. -/
def utf8DecodeSt : Option (Nat × Nat) → List Nat → Option (List Nat)
  | none, [] => some []
  | some _, [] => none
  | none, b :: rest =>
    if b < 128 then (utf8DecodeSt none rest).map fun ns => b :: ns
    else if b < 192 then none
    else if b < 224 then utf8DecodeSt (some (1, b - 192)) rest
    else if b < 240 then utf8DecodeSt (some (2, b - 224)) rest
    else utf8DecodeSt (some (3, b - 240)) rest
  | some (k, acc), b :: rest =>
    if 128 ≤ b ∧ b < 192 then
      if k ≤ 1 then (utf8DecodeSt none rest).map fun ns => (acc * 64 + (b - 128)) :: ns
      else utf8DecodeSt (some (k - 1, acc * 64 + (b - 128))) rest
    else none

/-- UTF-8 decoding of a byte stream into Unicode scalar values. -/
def utf8Decode (l : List Nat) : Option (List Nat) :=
  utf8DecodeSt none l

/-- Full percent-decoding of a path segment: percent-unescape to bytes, then
UTF-8 decode to code points. -/
def percentDecode (s : List Char) : Option (List Nat) :=
  (pctDecodeBytes s).bind utf8Decode

/-- Code points of a string, for comparing decodings. -/
def codePoints (s : List Char) : List Nat :=
  s.map Char.toNat

/-- The fixed base path of the image endpoint (App.tsx line 95). -/
def baseUrl : List Char :=
  ("https://fundacioncnse-dilse.org/bddilse/images/stories/").data

/-- The URL resolver of `handleSubmit` (App.tsx line 95): base path, then the
percent-encoded term, then `.png`. -/
def resolveUrl (t : List Char) : List Char :=
  baseUrl ++ encodeURIComponent t ++ (".png").data

/-- The error message built by `handleImageError` (App.tsx line 42),
with the submitted term interpolated. -/
def errMsg (t : List Char) : List Char :=
  ("No se encontró la imagen para la palabra: \"").data ++ t ++
    ("\". Por favor, verifica la ortografía.").data

/-- Characters legal in the URLs this app builds: unreserved characters,
percent escapes, and the base-URL punctuation `: / %` and hex digits. -/
def isUrlChar (c : Char) : Bool :=
  isUnreservedChar c || c == '%' || c == ':' || c == '/'

/-- State owned by the `App` component (App.tsx lines 81-83). -/
structure AppState where
  searchTerm : List Char
  submittedTerm : List Char
  imageUrl : Option (List Char)
deriving DecidableEq

/-- Local state of the `ImageDisplay` component (App.tsx lines 20-21). -/
structure DispState where
  error : Option (List Char)
  isLoading : Bool
deriving DecidableEq

/-- Combined state of the application and its display component. -/
structure SysState where
  app : AppState
  disp : DispState
deriving DecidableEq

/-- Initial state: empty input, empty submitted term, no URL, no error,
not loading (App.tsx lines 20-21 and 81-83). -/
def initState : SysState :=
  ⟨⟨[], [], none⟩, ⟨none, false⟩⟩

/-- The `useEffect` of `ImageDisplay` keyed on `[imageUrl]`
(App.tsx lines 23-31).  React re-runs the effect only when the dependency
changed under value equality; on a non-null URL it clears the error and
starts loading, on a null URL it clears both. -/
def urlEffect (oldUrl newUrl : Option (List Char)) (d : DispState) : DispState :=
  if newUrl = oldUrl then d
  else
    match newUrl with
    | some _ => ⟨none, true⟩
    | none => ⟨none, false⟩

/-- `handleSubmit` (App.tsx lines 85-96) followed by the display effect:
an empty cleaned term clears the URL and the submitted term, a non-empty
one stores the term and the resolved URL. -/
def handleSubmit (st : SysState) : SysState :=
  let clean := cleanTerm st.app.searchTerm
  if clean = [] then
    ⟨⟨st.app.searchTerm, [], none⟩, urlEffect st.app.imageUrl none st.disp⟩
  else
    ⟨⟨st.app.searchTerm, clean, some (resolveUrl clean)⟩,
      urlEffect st.app.imageUrl (some (resolveUrl clean)) st.disp⟩

/-- Events of the system: typing into the input, submitting the form, and
the image element reporting a load or an error for the URL it was given. -/
inductive Event where
  | input (s : List Char)
  | submit
  | imgLoad (url : List Char)
  | imgError (url : List Char)
deriving DecidableEq

/-- One step of the event loop.  Typing updates `searchTerm`
(App.tsx line 115); submit runs `handleSubmit`; an image event applies
only when its URL is the current one (the browser aborts the load of a
replaced `src`), and then runs `handleImageLoad` or `handleImageError`
(App.tsx lines 41-48). -/
def step (st : SysState) : Event → SysState
  | .input s => ⟨⟨s, st.app.submittedTerm, st.app.imageUrl⟩, st.disp⟩
  | .submit => handleSubmit st
  | .imgLoad url =>
    if st.app.imageUrl = some url then
      ⟨st.app, ⟨st.disp.error, false⟩⟩
    else st
  | .imgError url =>
    if st.app.imageUrl = some url then
      ⟨st.app, ⟨some (errMsg st.app.submittedTerm), false⟩⟩
    else st

/-- The four visual states of §4.2 of the spec. -/
inductive View where
  | Idle
  | Pending
  | Success
  | Failure
deriving DecidableEq

/-- The view rendered by `ImageDisplay` (App.tsx lines 33-74): the spinner
while loading, the error box when an error is set and loading is over, the
image when a URL is set with no error, and the placeholder otherwise. -/
def viewState (st : SysState) : View :=
  if st.disp.isLoading then View.Pending
  else
    match st.disp.error with
    | some _ => View.Failure
    | none =>
      match st.app.imageUrl with
      | some _ => View.Success
      | none => View.Idle

/-- States reachable from the initial state by event steps. -/
inductive Reachable : SysState → Prop
  | init : Reachable initState
  | step : ∀ {st : SysState}, Reachable st → ∀ e : Event, Reachable (step st e)

/-- Invariant tying the display state to the application state in every
reachable configuration. -/
def SysInv (st : SysState) : Prop :=
  (st.app.imageUrl = none →
    st.disp.error = none ∧ st.disp.isLoading = false ∧ st.app.submittedTerm = []) ∧
  (∀ u, st.app.imageUrl = some u →
    u = resolveUrl st.app.submittedTerm ∧ st.app.submittedTerm ≠ []) ∧
  (st.disp.isLoading = true → st.disp.error = none)

/-- A demonstration state: the user typed "casa" and submitted it; the
image load is pending. -/
def casaPending : SysState :=
  step (step initState (Event.input (("casa").data))) Event.submit

/-- A demonstration state: the pending load of "casa" reported an error;
the display shows the failure message. -/
def casaFailure : SysState :=
  step casaPending (Event.imgError (resolveUrl (("casa").data)))

/-- Every Unicode scalar value is below 0x110000. -/
theorem char_toNat_lt (c : Char) : c.toNat < 1114112 := by
  rcases c.valid with h | h <;> simp [Char.toNat] <;> omega

/-- Characters with equal code points are equal. -/
theorem char_toNat_injective {c d : Char} (h : c.toNat = d.toNat) : c = d := by
  have hc := Char.ofNat_toNat c
  rw [h, Char.ofNat_toNat] at hc
  exact hc.symm

/-- Building a character from a valid code point preserves the code point. -/
theorem toNat_ofNat_valid (n : Nat) (h : n.isValidChar) : (Char.ofNat n).toNat = n := by
  simp [Char.ofNat, Char.ofNatAux, h, Char.toNat, UInt32.toNat, Nat.mod_eq_of_lt]

/-- Reading back an uppercase hex digit returns its value. -/
theorem hexVal_hexDigitChar (n : Nat) (h : n < 16) :
    hexVal (hexDigitChar n) = some n := by
  interval_cases n <;> decide

/-- Percent-decoding consumes one percent-escape into its byte. -/
theorem pctDecodeBytes_pctByte (b : Nat) (hb : b < 256) (rest : List Char) :
    pctDecodeBytes (pctByte b ++ rest) = (pctDecodeBytes rest).map fun bs => b :: bs := by
  have h1 : hexVal (hexDigitChar (b / 16)) = some (b / 16) :=
    hexVal_hexDigitChar _ (by omega)
  have h2 : hexVal (hexDigitChar (b % 16)) = some (b % 16) :=
    hexVal_hexDigitChar _ (by omega)
  have hb' : 16 * (b / 16) + b % 16 = b := by omega
  simp [pctByte, pctDecodeBytes, h1, h2, hb']

/-- Percent-decoding consumes a run of percent-escapes into its bytes. -/
theorem pctDecodeBytes_flatMap (bs : List Nat) (hbs : ∀ b ∈ bs, b < 256) (rest : List Char) :
    pctDecodeBytes (bs.flatMap pctByte ++ rest) =
      (pctDecodeBytes rest).map fun ns => bs ++ ns := by
  induction bs with
  | nil => simp
  | cons b bs ih =>
    have hb : b < 256 := hbs b (by simp)
    have ih' := ih (fun x hx => hbs x (by simp [hx]))
    simp only [List.flatMap_cons, List.append_assoc]
    rw [pctDecodeBytes_pctByte b hb, ih']
    cases pctDecodeBytes rest <;> simp

/-- Unreserved characters are ASCII. -/
theorem unreserved_lt_128 {c : Char} (h : isUnreservedChar c = true) : c.toNat < 128 := by
  simp [isUnreservedChar] at h
  omega

/-- The percent sign is not an unreserved character. -/
theorem unreserved_ne_pct {c : Char} (h : isUnreservedChar c = true) : ¬ c = '%' := by
  intro he
  subst he
  simp [isUnreservedChar] at h

/-- UTF-8 encoding of a scalar value produces bytes. -/
theorem utf8Bytes_lt (n : Nat) (hn : n < 1114112) (b : Nat) (hb : b ∈ utf8Bytes n) :
    b < 256 := by
  unfold utf8Bytes at hb
  by_cases h1 : n < 128
  · simp [h1] at hb
    omega
  · by_cases h2 : n < 2048
    · simp [h1, h2] at hb
      rcases hb with h | h <;> omega
    · by_cases h3 : n < 65536
      · simp [h1, h2, h3] at hb
        rcases hb with h | h | h <;> omega
      · simp [h1, h2, h3] at hb
        rcases hb with h | h | h | h <;> omega

/-- Percent-decoding the encoding of one character yields its UTF-8 bytes. -/
theorem pctDecodeBytes_encodeChar (c : Char) (rest : List Char) :
    pctDecodeBytes (encodeChar c ++ rest) =
      (pctDecodeBytes rest).map fun ns => utf8Bytes c.toNat ++ ns := by
  by_cases h : isUnreservedChar c = true
  · have h1 : c.toNat < 128 := unreserved_lt_128 h
    have h2 : ¬ c = '%' := unreserved_ne_pct h
    have h3 : utf8Bytes c.toNat = [c.toNat] := by simp [utf8Bytes, h1]
    rw [encodeChar, if_pos h, List.singleton_append, pctDecodeBytes.eq_def]
    simp [h2, h3]
  · simp only [encodeChar, h, if_false]
    exact pctDecodeBytes_flatMap _
      (fun b hb => utf8Bytes_lt _ (char_toNat_lt c) b hb) rest

/-- Percent-decoding the full encoding of a string yields its UTF-8 byte stream. -/
theorem pctDecodeBytes_encode (t : List Char) :
    pctDecodeBytes (encodeURIComponent t) =
      some (t.flatMap fun c => utf8Bytes c.toNat) := by
  induction t with
  | nil => simp [encodeURIComponent, pctDecodeBytes]
  | cons c t ih =>
    have : encodeURIComponent (c :: t) = encodeChar c ++ encodeURIComponent t := by
      simp [encodeURIComponent]
    rw [this, pctDecodeBytes_encodeChar, ih]
    simp

/-- The UTF-8 state machine decodes the encoding of one scalar value and moves on. -/
theorem utf8Decode_utf8Bytes (n : Nat) (hn : n < 1114112) (rest : List Nat) :
    utf8DecodeSt none (utf8Bytes n ++ rest) =
      (utf8DecodeSt none rest).map fun ns => n :: ns := by
  by_cases h1 : n < 128
  · have e : utf8Bytes n = [n] := by simp [utf8Bytes, h1]
    rw [e, List.singleton_append, utf8DecodeSt]
    rw [if_pos h1]
  · by_cases h2 : n < 2048
    · have e : utf8Bytes n = [192 + n / 64, 128 + n % 64] := by
        simp [utf8Bytes, h1, h2]
      rw [e]
      simp only [List.cons_append, List.nil_append]
      rw [utf8DecodeSt]
      rw [if_neg (by omega), if_neg (by omega), if_pos (by omega)]
      rw [utf8DecodeSt]
      rw [if_pos (by omega), if_pos (by omega)]
      have hx : (192 + n / 64 - 192) * 64 + (128 + n % 64 - 128) = n := by omega
      rw [hx]
    · by_cases h3 : n < 65536
      · have e : utf8Bytes n = [224 + n / 4096, 128 + n / 64 % 64, 128 + n % 64] := by
          simp [utf8Bytes, h1, h2, h3]
        rw [e]
        simp only [List.cons_append, List.nil_append]
        rw [utf8DecodeSt]
        rw [if_neg (by omega), if_neg (by omega), if_neg (by omega), if_pos (by omega)]
        rw [utf8DecodeSt]
        rw [if_pos (by omega), if_neg (by omega)]
        rw [utf8DecodeSt]
        rw [if_pos (by omega), if_pos (by omega)]
        have hx : ((224 + n / 4096 - 224) * 64 + (128 + n / 64 % 64 - 128)) * 64 +
            (128 + n % 64 - 128) = n := by omega
        rw [hx]
      · have e : utf8Bytes n = [240 + n / 262144, 128 + n / 4096 % 64,
            128 + n / 64 % 64, 128 + n % 64] := by
          simp [utf8Bytes, h1, h2, h3]
        rw [e]
        simp only [List.cons_append, List.nil_append]
        rw [utf8DecodeSt]
        rw [if_neg (by omega), if_neg (by omega), if_neg (by omega), if_neg (by omega)]
        rw [utf8DecodeSt]
        rw [if_pos (by omega), if_neg (by omega)]
        rw [utf8DecodeSt]
        rw [if_pos (by omega), if_neg (by omega)]
        rw [utf8DecodeSt]
        rw [if_pos (by omega), if_pos (by omega)]
        have hx : (((240 + n / 262144 - 240) * 64 + (128 + n / 4096 % 64 - 128)) * 64 +
            (128 + n / 64 % 64 - 128)) * 64 + (128 + n % 64 - 128) = n := by omega
        rw [hx]

/-- The UTF-8 state machine decodes a whole encoded string. -/
theorem utf8Decode_flatMap (t : List Char) :
    utf8Decode (t.flatMap fun c => utf8Bytes c.toNat) = some (codePoints t) := by
  unfold utf8Decode
  induction t with
  | nil => simp [utf8DecodeSt, codePoints]
  | cons c t ih =>
    simp only [List.flatMap_cons]
    rw [utf8Decode_utf8Bytes _ (char_toNat_lt c), ih]
    simp [codePoints]

/-- Round trip: percent-decoding the output of `encodeURIComponent` returns
the code points of the input. -/
theorem percentDecode_encode (t : List Char) :
    percentDecode (encodeURIComponent t) = some (codePoints t) := by
  rw [percentDecode, pctDecodeBytes_encode]
  exact utf8Decode_flatMap t

/-- `encodeURIComponent` is injective, a consequence of the round trip. -/
theorem encodeURIComponent_injective {t1 t2 : List Char}
    (h : encodeURIComponent t1 = encodeURIComponent t2) : t1 = t2 := by
  have h1 := percentDecode_encode t1
  have h2 := percentDecode_encode t2
  rw [h, h2] at h1
  have hcp : codePoints t2 = codePoints t1 := by
    injection h1
  unfold codePoints at hcp
  have : t2 = t1 := by
    apply List.map_injective_iff.mpr _ hcp
    intro a b hab
    exact char_toNat_injective hab
  exact this.symm

/-- Distinct terms resolve to distinct URLs. -/
theorem resolveUrl_injective {t1 t2 : List Char}
    (h : resolveUrl t1 = resolveUrl t2) : t1 = t2 := by
  unfold resolveUrl at h
  have h1 : baseUrl ++ encodeURIComponent t1 = baseUrl ++ encodeURIComponent t2 :=
    List.append_cancel_right h
  exact encodeURIComponent_injective (List.append_cancel_left h1)

/-- Lowercasing does not change whether a character is whitespace. -/
theorem isJsSpace_toLowerChar (c : Char) : isJsSpace (toLowerChar c) = isJsSpace c := by
  unfold toLowerChar
  split
  case isTrue h =>
    have hv : (c.toNat + 32).isValidChar := Or.inl (by omega)
    have ht := toNat_ofNat_valid _ hv
    have l : isJsSpace (Char.ofNat (c.toNat + 32)) = false := by
      simp [isJsSpace, ht]
      omega
    have r : isJsSpace c = false := by
      simp [isJsSpace]
      omega
    rw [l, r]
  case isFalse h => rfl

/-- Trimming commutes with lowercasing. -/
theorem trim_toLowerCase (s : List Char) : trim (toLowerCase s) = toLowerCase (trim s) := by
  have hf : (isJsSpace ∘ toLowerChar) = isJsSpace :=
    funext fun c => isJsSpace_toLowerChar c
  unfold trim toLowerCase
  rw [List.dropWhile_map, hf, ← List.map_reverse, List.dropWhile_map, hf, ← List.map_reverse]

/-- The normalization of the code, lower after trim, equals the
trim-after-lower phrasing used by the spec. -/
theorem cleanTerm_eq_trim_lower (s : List Char) :
    cleanTerm s = trim (toLowerCase s) :=
  (trim_toLowerCase s).symm

/-- The display effect does not re-run when the URL value is unchanged. -/
theorem urlEffect_eq (old : Option (List Char)) (newUrl : Option (List Char))
    (d : DispState) (h : newUrl = old) : urlEffect old newUrl d = d := by
  unfold urlEffect
  rw [if_pos h]

/-- The display effect on a changed, non-null URL starts loading and clears
the error. -/
theorem urlEffect_ne_some (old : Option (List Char)) (u : List Char) (d : DispState)
    (h : ¬ some u = old) : urlEffect old (some u) d = ⟨none, true⟩ := by
  unfold urlEffect
  rw [if_neg h]

/-- The display effect on a changed, null URL clears both flags. -/
theorem urlEffect_ne_none (old : Option (List Char)) (d : DispState)
    (h : ¬ (none : Option (List Char)) = old) : urlEffect old none d = ⟨none, false⟩ := by
  unfold urlEffect
  rw [if_neg h]

/-- Shape of `handleSubmit` when the cleaned term is empty. -/
theorem handleSubmit_empty (st : SysState) (hc : cleanTerm st.app.searchTerm = []) :
    handleSubmit st =
      ⟨⟨st.app.searchTerm, [], none⟩, urlEffect st.app.imageUrl none st.disp⟩ := by
  unfold handleSubmit
  rw [if_pos hc]

/-- Shape of `handleSubmit` when the cleaned term is non-empty. -/
theorem handleSubmit_nonempty (st : SysState) (hc : ¬ cleanTerm st.app.searchTerm = []) :
    handleSubmit st =
      ⟨⟨st.app.searchTerm, cleanTerm st.app.searchTerm,
          some (resolveUrl (cleanTerm st.app.searchTerm))⟩,
        urlEffect st.app.imageUrl
          (some (resolveUrl (cleanTerm st.app.searchTerm))) st.disp⟩ := by
  unfold handleSubmit
  rw [if_neg hc]

/-- A load event for the current URL stops the loading indicator. -/
theorem step_imgLoad_hit (st : SysState) (url : List Char)
    (h : st.app.imageUrl = some url) :
    step st (Event.imgLoad url) = ⟨st.app, ⟨st.disp.error, false⟩⟩ := by
  simp only [step]
  rw [if_pos h]

/-- A load event for a stale URL is ignored. -/
theorem step_imgLoad_miss (st : SysState) (url : List Char)
    (h : ¬ st.app.imageUrl = some url) :
    step st (Event.imgLoad url) = st := by
  simp only [step]
  rw [if_neg h]

/-- An error event for the current URL records the message and stops loading. -/
theorem step_imgError_hit (st : SysState) (url : List Char)
    (h : st.app.imageUrl = some url) :
    step st (Event.imgError url) =
      ⟨st.app, ⟨some (errMsg st.app.submittedTerm), false⟩⟩ := by
  simp only [step]
  rw [if_pos h]

/-- An error event for a stale URL is ignored. -/
theorem step_imgError_miss (st : SysState) (url : List Char)
    (h : ¬ st.app.imageUrl = some url) :
    step st (Event.imgError url) = st := by
  simp only [step]
  rw [if_neg h]

/-- The initial state satisfies the system invariant. -/
theorem inv_init : SysInv initState := by
  refine ⟨fun _ => ⟨rfl, rfl, rfl⟩, fun u hu => by simp [initState] at hu, fun _ => rfl⟩

/-- Every event step preserves the system invariant. -/
theorem inv_step (st : SysState) (hst : SysInv st) (e : Event) : SysInv (step st e) := by
  obtain ⟨h1, h2, h3⟩ := hst
  cases e with
  | input s =>
    exact ⟨h1, h2, h3⟩
  | submit =>
    show SysInv (handleSubmit st)
    by_cases hc : cleanTerm st.app.searchTerm = []
    · rw [handleSubmit_empty st hc]
      by_cases hu : (none : Option (List Char)) = st.app.imageUrl
      · rw [urlEffect_eq _ _ _ hu]
        have hd := h1 hu.symm
        exact ⟨fun _ => ⟨hd.1, hd.2.1, rfl⟩, fun u hu2 => by simp at hu2, fun _ => hd.1⟩
      · rw [urlEffect_ne_none _ _ hu]
        exact ⟨fun _ => ⟨rfl, rfl, rfl⟩, fun u hu2 => by simp at hu2, fun _ => rfl⟩
    · rw [handleSubmit_nonempty st hc]
      by_cases hu : some (resolveUrl (cleanTerm st.app.searchTerm)) = st.app.imageUrl
      · rw [urlEffect_eq _ _ _ hu]
        refine ⟨fun hn => by simp at hn, fun u hu2 => ⟨?_, hc⟩, h3⟩
        have : some (resolveUrl (cleanTerm st.app.searchTerm)) = some u := hu2
        injection this with h
        exact h.symm
      · rw [urlEffect_ne_some _ _ _ hu]
        refine ⟨fun hn => by simp at hn, fun u hu2 => ⟨?_, hc⟩, fun _ => rfl⟩
        have : some (resolveUrl (cleanTerm st.app.searchTerm)) = some u := hu2
        injection this with h
        exact h.symm
  | imgLoad url =>
    by_cases hu : st.app.imageUrl = some url
    · rw [step_imgLoad_hit st url hu]
      refine ⟨fun hn => ?_, fun u hu2 => h2 u hu2, fun hl => by simp at hl⟩
      rw [hn] at hu
      simp at hu
    · rw [step_imgLoad_miss st url hu]
      exact ⟨h1, h2, h3⟩
  | imgError url =>
    by_cases hu : st.app.imageUrl = some url
    · rw [step_imgError_hit st url hu]
      refine ⟨fun hn => ?_, fun u hu2 => h2 u hu2, fun hl => by simp at hl⟩
      rw [hn] at hu
      simp at hu
    · rw [step_imgError_miss st url hu]
      exact ⟨h1, h2, h3⟩

/-- Every reachable state satisfies the system invariant. -/
theorem reachable_inv {st : SysState} (h : Reachable st) : SysInv st := by
  induction h with
  | init => exact inv_init
  | step hr e ih => exact inv_step _ ih e

/-- Hex digits are unreserved characters. -/
theorem hexDigitChar_unreserved (m : Nat) (hm : m < 16) :
    isUnreservedChar (hexDigitChar m) = true := by
  unfold hexDigitChar
  split
  case isTrue h =>
    have ht := toNat_ofNat_valid (48 + m) (Or.inl (by omega))
    simp [isUnreservedChar, ht]
    omega
  case isFalse h =>
    have ht := toNat_ofNat_valid (55 + m) (Or.inl (by omega))
    simp [isUnreservedChar, ht]
    omega

/-- Every character of an encoded string is unreserved or a percent sign. -/
theorem encode_mem (t : List Char) (c : Char) (hc : c ∈ encodeURIComponent t) :
    isUnreservedChar c = true ∨ c = '%' := by
  unfold encodeURIComponent at hc
  rw [List.mem_flatten] at hc
  obtain ⟨l, hl, hcl⟩ := hc
  rw [List.mem_map] at hl
  obtain ⟨c2, hc2, rfl⟩ := hl
  unfold encodeChar at hcl
  split at hcl
  · left
    rw [List.mem_singleton] at hcl
    subst hcl
    assumption
  · rw [List.mem_flatMap] at hcl
    obtain ⟨b, hb, hcb⟩ := hcl
    have hb256 : b < 256 := utf8Bytes_lt _ (char_toNat_lt c2) b hb
    unfold pctByte at hcb
    simp only [List.mem_cons, List.not_mem_nil, or_false] at hcb
    rcases hcb with h | h | h
    · right
      exact h
    · left
      rw [h]
      exact hexDigitChar_unreserved _ (by omega)
    · left
      rw [h]
      exact hexDigitChar_unreserved _ (by omega)

/-- The encoded segment never contains a slash. -/
theorem encode_no_slash (t : List Char) (c : Char) (hc : c ∈ encodeURIComponent t) :
    ¬ c = '/' := by
  intro he
  subst he
  rcases encode_mem t _ hc with h | h
  · simp [isUnreservedChar] at h
  · exact absurd h (by decide)

/-- C1 (amended): for every state whose input cleans to a non-empty term,
submitting resolves an image URL made of the base path, the percent-encoded
cleaned term and `.png`; the encoded segment contains no slash, and
percent-decoding it returns `trim(lower(input))`. -/
theorem C1_resolve_roundtrip (st : SysState) (h : ¬ cleanTerm st.app.searchTerm = []) :
    (step st Event.submit).app.imageUrl =
        some (baseUrl ++ encodeURIComponent (cleanTerm st.app.searchTerm) ++ (".png").data) ∧
      ¬ ('/') ∈ encodeURIComponent (cleanTerm st.app.searchTerm) ∧
      percentDecode (encodeURIComponent (cleanTerm st.app.searchTerm)) =
        some (codePoints (trim (toLowerCase st.app.searchTerm))) := by
  refine ⟨?_, fun hmem => encode_no_slash _ _ hmem rfl, ?_⟩
  · have e : step st Event.submit = handleSubmit st := rfl
    rw [e, handleSubmit_nonempty st h]
    rfl
  · rw [percentDecode_encode, cleanTerm_eq_trim_lower]

/-- C1 counterexample: the whitespace-only input consisting of one space is a
non-empty string, yet submitting it produces no URL at all (the image
reference is cleared), so the claim fails as stated for it. -/
theorem C1_cex :
    (([' ']) : List Char) ≠ [] ∧
      (step (step initState (Event.input [' '])) Event.submit).app.imageUrl = none := by
  decide

/-- C1 witness: the amended claim instantiated at the concrete input
`"Casa "`. -/
theorem C1_witness :
    (step (⟨⟨("Casa ").data, [], none⟩, ⟨none, false⟩⟩ : SysState) Event.submit).app.imageUrl =
        some (baseUrl ++ encodeURIComponent (cleanTerm (("Casa ").data)) ++ (".png").data) ∧
      ¬ ('/') ∈ encodeURIComponent (cleanTerm (("Casa ").data)) ∧
      percentDecode (encodeURIComponent (cleanTerm (("Casa ").data))) =
        some (codePoints (trim (toLowerCase (("Casa ").data)))) :=
  C1_resolve_roundtrip ⟨⟨("Casa ").data, [], none⟩, ⟨none, false⟩⟩ (by decide)

/-- C7: the URL resolver is total: for every string, including the empty one
and arbitrary Unicode, it returns a well-formed URL, one that starts with
`https://` and consists of URL-legal characters only. -/
theorem C7_resolver_total (s : List Char) :
    (resolveUrl s).take 8 = ("https://").data ∧
      ∀ c ∈ resolveUrl s, isUrlChar c = true := by
  constructor
  · rw [resolveUrl, List.append_assoc]
    rw [List.take_append_of_le_length (by decide)]
    decide
  · intro c hc
    rw [resolveUrl] at hc
    simp only [List.append_assoc, List.mem_append] at hc
    rcases hc with hc | hc | hc
    · have hb : ∀ c ∈ baseUrl, isUrlChar c = true := by decide
      exact hb c hc
    · rcases encode_mem s c hc with h | h
      · simp [isUrlChar, h]
      · rw [h]
        decide
    · have hp : ∀ c ∈ (".png").data, isUrlChar c = true := by decide
      exact hp c hc

/-- C2: submitting an input that cleans to the empty term, from any reachable
state, silently resets the controller to Idle: no image reference, empty
submitted term, no error, not loading. -/
theorem C2_empty_submit_idle (st : SysState) (hr : Reachable st)
    (h : cleanTerm st.app.searchTerm = []) :
    (step st Event.submit).app.imageUrl = none ∧
      (step st Event.submit).app.submittedTerm = [] ∧
      (step st Event.submit).disp.error = none ∧
      (step st Event.submit).disp.isLoading = false ∧
      viewState (step st Event.submit) = View.Idle := by
  have e : step st Event.submit = handleSubmit st := rfl
  rw [e, handleSubmit_empty st h]
  obtain ⟨h1, _, _⟩ := reachable_inv hr
  by_cases hu : (none : Option (List Char)) = st.app.imageUrl
  · rw [urlEffect_eq _ _ _ hu]
    have hd := h1 hu.symm
    refine ⟨rfl, rfl, hd.1, hd.2.1, ?_⟩
    simp [viewState, hd.1, hd.2.1]
  · rw [urlEffect_ne_none _ _ hu]
    exact ⟨rfl, rfl, rfl, rfl, rfl⟩

/-- C2 witness: the claim instantiated at the initial state. -/
theorem C2_witness :
    (step initState Event.submit).app.imageUrl = none ∧
      (step initState Event.submit).app.submittedTerm = [] ∧
      (step initState Event.submit).disp.error = none ∧
      (step initState Event.submit).disp.isLoading = false ∧
      viewState (step initState Event.submit) = View.Idle :=
  C2_empty_submit_idle initState Reachable.init (by decide)

/-- A display that is not loading is never in the Pending view. -/
theorem viewState_not_pending (st : SysState) (h : st.disp.isLoading = false) :
    ¬ viewState st = View.Pending := by
  cases herr : st.disp.error <;> cases hurl : st.app.imageUrl <;>
    simp [viewState, h, herr, hurl]

/-- C3 counterexample: in the reachable state where "casa" was submitted and
its load failed, the input still reads "casa"; submitting it again leaves the
display in Failure, not Pending, because the URL value is unchanged and the
display effect does not re-run. -/
theorem C3_cex :
    cleanTerm casaFailure.app.searchTerm = ("casa").data ∧
      viewState casaFailure = View.Failure ∧
      ¬ viewState (step casaFailure Event.submit) = View.Pending ∧
      viewState (step casaFailure Event.submit) = View.Failure := by
  decide

/-- C3 (amended): submitting any input that cleans to "casa" sets the image
reference to the resolved URL, which ends in `/casa.png`, and, provided that
URL was not already the current reference, puts the display in Pending with
no error. -/
theorem C3_casa_pending (st : SysState)
    (h : cleanTerm st.app.searchTerm = ("casa").data)
    (hne : ¬ st.app.imageUrl = some (resolveUrl (("casa").data))) :
    (step st Event.submit).app.imageUrl = some (resolveUrl (("casa").data)) ∧
      resolveUrl (("casa").data) =
        ("https://fundacioncnse-dilse.org/bddilse/images/stories").data ++
          ("/casa.png").data ∧
      (step st Event.submit).disp = ⟨none, true⟩ ∧
      viewState (step st Event.submit) = View.Pending := by
  have hc : ¬ cleanTerm st.app.searchTerm = [] := by
    rw [h]
    decide
  have e : step st Event.submit = handleSubmit st := rfl
  rw [e, handleSubmit_nonempty st hc, h]
  have hu : ¬ some (resolveUrl (("casa").data)) = st.app.imageUrl := fun he => hne he.symm
  rw [urlEffect_ne_some _ _ _ hu]
  exact ⟨rfl, by decide, rfl, rfl⟩

/-- C3 witness: the amended claim instantiated at a state holding the raw
input `"Casa "`. -/
theorem C3_witness :
    (step (⟨⟨("Casa ").data, [], none⟩, ⟨none, false⟩⟩ : SysState) Event.submit).app.imageUrl =
        some (resolveUrl (("casa").data)) ∧
      resolveUrl (("casa").data) =
        ("https://fundacioncnse-dilse.org/bddilse/images/stories").data ++
          ("/casa.png").data ∧
      (step (⟨⟨("Casa ").data, [], none⟩, ⟨none, false⟩⟩ : SysState) Event.submit).disp =
        ⟨none, true⟩ ∧
      viewState (step (⟨⟨("Casa ").data, [], none⟩, ⟨none, false⟩⟩ : SysState) Event.submit) =
        View.Pending :=
  C3_casa_pending ⟨⟨("Casa ").data, [], none⟩, ⟨none, false⟩⟩ (by decide) (by decide)

/-- C4: a pending state that receives a load-failure notification for the
current URL transitions to Failure, and the displayed message embeds the
exact submitted term between two fixed literals. -/
theorem C4_pending_error_failure (st : SysState) (url : List Char)
    (hurl : st.app.imageUrl = some url)
    (_hload : st.disp.isLoading = true)
    (_hterm : ¬ st.app.submittedTerm = []) :
    viewState (step st (Event.imgError url)) = View.Failure ∧
      (step st (Event.imgError url)).disp.error = some (errMsg st.app.submittedTerm) ∧
      errMsg st.app.submittedTerm =
        ("No se encontró la imagen para la palabra: \"").data ++
          st.app.submittedTerm ++ ("\". Por favor, verifica la ortografía.").data := by
  rw [step_imgError_hit st url hurl]
  exact ⟨rfl, rfl, rfl⟩

/-- C4 witness: the claim instantiated at the pending state for "casa". -/
theorem C4_witness :
    viewState (step casaPending (Event.imgError (resolveUrl (("casa").data)))) = View.Failure ∧
      (step casaPending (Event.imgError (resolveUrl (("casa").data)))).disp.error =
        some (errMsg casaPending.app.submittedTerm) ∧
      errMsg casaPending.app.submittedTerm =
        ("No se encontró la imagen para la palabra: \"").data ++
          casaPending.app.submittedTerm ++ ("\". Por favor, verifica la ortografía.").data :=
  C4_pending_error_failure casaPending (resolveUrl (("casa").data))
    (by decide) (by decide) (by decide)

/-- C5: from any reachable state, submitting a non-empty cleaned term that
differs from the current submitted term re-enters Pending: loading is set,
the error is cleared and the reference points at the new URL. -/
theorem C5_new_term_pending (st : SysState) (hr : Reachable st)
    (hne : ¬ cleanTerm st.app.searchTerm = [])
    (hdiff : ¬ cleanTerm st.app.searchTerm = st.app.submittedTerm) :
    (step st Event.submit).disp = ⟨none, true⟩ ∧
      (step st Event.submit).app.imageUrl =
        some (resolveUrl (cleanTerm st.app.searchTerm)) ∧
      viewState (step st Event.submit) = View.Pending := by
  have e : step st Event.submit = handleSubmit st := rfl
  rw [e, handleSubmit_nonempty st hne]
  obtain ⟨h1, h2, _⟩ := reachable_inv hr
  have hu : ¬ some (resolveUrl (cleanTerm st.app.searchTerm)) = st.app.imageUrl := by
    intro he
    cases hcase : st.app.imageUrl with
    | none =>
      rw [hcase] at he
      exact Option.noConfusion he
    | some u =>
      rw [hcase] at he
      obtain ⟨hu1, _⟩ := h2 u hcase
      injection he with he2
      rw [hu1] at he2
      exact hdiff (resolveUrl_injective he2)
  rw [urlEffect_ne_some _ _ _ hu]
  exact ⟨rfl, rfl, rfl⟩

/-- C5 witness: the claim instantiated at the pending "casa" state with the
new input "perro". -/
theorem C5_witness :
    (step (step casaPending (Event.input (("perro").data))) Event.submit).disp =
        ⟨none, true⟩ ∧
      (step (step casaPending (Event.input (("perro").data))) Event.submit).app.imageUrl =
        some (resolveUrl (cleanTerm
          (step casaPending (Event.input (("perro").data))).app.searchTerm)) ∧
      viewState (step (step casaPending (Event.input (("perro").data))) Event.submit) =
        View.Pending :=
  C5_new_term_pending (step casaPending (Event.input (("perro").data)))
    (((Reachable.init.step (Event.input (("casa").data))).step Event.submit).step
      (Event.input (("perro").data)))
    (by decide) (by decide)

/-- C6: submitting a second, different term while the first load is pending
abandons the first load: its late load or error notification leaves the state
unchanged, while the second URL load or error notification alone decides
Success or Failure. -/
theorem C6_stale_discarded (st : SysState) (hr : Reachable st) (u1 : List Char)
    (hurl : st.app.imageUrl = some u1)
    (_hload : st.disp.isLoading = true)
    (hne : ¬ cleanTerm st.app.searchTerm = [])
    (hdiff : ¬ cleanTerm st.app.searchTerm = st.app.submittedTerm) :
    step (step st Event.submit) (Event.imgLoad u1) = step st Event.submit ∧
      step (step st Event.submit) (Event.imgError u1) = step st Event.submit ∧
      viewState (step (step st Event.submit)
        (Event.imgLoad (resolveUrl (cleanTerm st.app.searchTerm)))) = View.Success ∧
      viewState (step (step st Event.submit)
        (Event.imgError (resolveUrl (cleanTerm st.app.searchTerm)))) = View.Failure := by
  obtain ⟨_, h2, _⟩ := reachable_inv hr
  obtain ⟨hu1eq, _⟩ := h2 u1 hurl
  have hne12 : ¬ resolveUrl (cleanTerm st.app.searchTerm) = u1 := by
    intro he
    rw [hu1eq] at he
    exact hdiff (resolveUrl_injective he)
  have e : step st Event.submit = handleSubmit st := rfl
  rw [e, handleSubmit_nonempty st hne]
  have heff : urlEffect st.app.imageUrl
      (some (resolveUrl (cleanTerm st.app.searchTerm))) st.disp = ⟨none, true⟩ := by
    apply urlEffect_ne_some
    rw [hurl]
    intro he
    injection he with he2
    exact hne12 he2
  rw [heff]
  refine ⟨?_, ?_, ?_, ?_⟩
  · apply step_imgLoad_miss
    intro he
    injection he with he2
    exact hne12 he2
  · apply step_imgError_miss
    intro he
    injection he with he2
    exact hne12 he2
  · rw [step_imgLoad_hit _ _ rfl]
    rfl
  · rw [step_imgError_hit _ _ rfl]
    rfl

/-- C6 witness: the claim instantiated at the pending "casa" state with the
new input "perro". -/
theorem C6_witness :
    step (step (step casaPending (Event.input (("perro").data))) Event.submit)
        (Event.imgLoad (resolveUrl (("casa").data))) =
      step (step casaPending (Event.input (("perro").data))) Event.submit ∧
      step (step (step casaPending (Event.input (("perro").data))) Event.submit)
          (Event.imgError (resolveUrl (("casa").data))) =
        step (step casaPending (Event.input (("perro").data))) Event.submit ∧
      viewState (step (step (step casaPending (Event.input (("perro").data))) Event.submit)
        (Event.imgLoad (resolveUrl (cleanTerm
          (step casaPending (Event.input (("perro").data))).app.searchTerm)))) =
        View.Success ∧
      viewState (step (step (step casaPending (Event.input (("perro").data))) Event.submit)
        (Event.imgError (resolveUrl (cleanTerm
          (step casaPending (Event.input (("perro").data))).app.searchTerm)))) =
        View.Failure :=
  C6_stale_discarded (step casaPending (Event.input (("perro").data)))
    (((Reachable.init.step (Event.input (("casa").data))).step Event.submit).step
      (Event.input (("perro").data)))
    (resolveUrl (("casa").data))
    (by decide) (by decide) (by decide) (by decide)

/-- C8: in every reachable state the image reference is non-null exactly when
the submitted term is non-empty, and initially both are absent. -/
theorem C8_url_iff_submitted (st : SysState) (hr : Reachable st) :
    (¬ st.app.imageUrl = none ↔ ¬ st.app.submittedTerm = []) ∧
      initState.app.imageUrl = none ∧ initState.app.submittedTerm = [] := by
  obtain ⟨h1, h2, _⟩ := reachable_inv hr
  refine ⟨⟨?_, ?_⟩, rfl, rfl⟩
  · intro hne
    cases hcase : st.app.imageUrl with
    | none => exact absurd hcase hne
    | some u => exact (h2 u hcase).2
  · intro hterm hnone
    exact hterm (h1 hnone).2.2

/-- C8 witness: the claim instantiated at the pending "casa" state. -/
theorem C8_witness :
    (¬ casaPending.app.imageUrl = none ↔ ¬ casaPending.app.submittedTerm = []) ∧
      initState.app.imageUrl = none ∧ initState.app.submittedTerm = [] :=
  C8_url_iff_submitted casaPending
    ((Reachable.init.step (Event.input (("casa").data))).step Event.submit)

/-- C9: a pending state receiving a load-success notification for the current
URL transitions to Success, and from any state displaying Success no event
other than a submission can re-enter Pending. -/
theorem C9_success_transitions (st st2 : SysState) (hr : Reachable st) (url : List Char)
    (hurl : st.app.imageUrl = some url)
    (hload : st.disp.isLoading = true)
    (hsucc : viewState st2 = View.Success)
    (e : Event) (he : ¬ e = Event.submit) :
    viewState (step st (Event.imgLoad url)) = View.Success ∧
      ¬ viewState (step st2 e) = View.Pending := by
  constructor
  · obtain ⟨_, _, h3⟩ := reachable_inv hr
    have herr := h3 hload
    rw [step_imgLoad_hit st url hurl]
    simp [viewState, herr, hurl]
  · cases e with
    | input s =>
      have e2 : viewState (step st2 (Event.input s)) = viewState st2 := rfl
      rw [e2, hsucc]
      decide
    | submit => exact absurd rfl he
    | imgLoad u =>
      by_cases hc : st2.app.imageUrl = some u
      · rw [step_imgLoad_hit st2 u hc]
        exact viewState_not_pending _ rfl
      · rw [step_imgLoad_miss st2 u hc, hsucc]
        decide
    | imgError u =>
      by_cases hc : st2.app.imageUrl = some u
      · rw [step_imgError_hit st2 u hc]
        exact viewState_not_pending _ rfl
      · rw [step_imgError_miss st2 u hc, hsucc]
        decide

/-- C9 witness: the claim instantiated at the pending "casa" state, its
success successor, and a subsequent error event. -/
theorem C9_witness :
    viewState (step casaPending (Event.imgLoad (resolveUrl (("casa").data)))) =
        View.Success ∧
      ¬ viewState (step (step casaPending (Event.imgLoad (resolveUrl (("casa").data))))
          (Event.imgError (resolveUrl (("casa").data)))) = View.Pending :=
  C9_success_transitions casaPending
    (step casaPending (Event.imgLoad (resolveUrl (("casa").data))))
    ((Reachable.init.step (Event.input (("casa").data))).step Event.submit)
    (resolveUrl (("casa").data))
    (by decide) (by decide) (by decide)
    (Event.imgError (resolveUrl (("casa").data))) (by decide)

/-- C10: re-submitting an input that cleans to the current submitted term
leaves the whole state unchanged, because the resolved URL equals the current
reference and the display effect does not re-run; in particular a Failure
display stays in Failure. -/
theorem C10_same_term_noop (st : SysState) (hr : Reachable st) (u : List Char)
    (hurl : st.app.imageUrl = some u)
    (hsame : cleanTerm st.app.searchTerm = st.app.submittedTerm) :
    step st Event.submit = st := by
  obtain ⟨_, h2, _⟩ := reachable_inv hr
  obtain ⟨hueq, hne⟩ := h2 u hurl
  have hc : ¬ cleanTerm st.app.searchTerm = [] := by
    rw [hsame]
    exact hne
  have e : step st Event.submit = handleSubmit st := rfl
  rw [e, handleSubmit_nonempty st hc, hsame]
  have hu2 : some (resolveUrl st.app.submittedTerm) = st.app.imageUrl := by
    rw [hurl, hueq]
  rw [urlEffect_eq _ _ _ hu2, hu2]

/-- C10 witness: the claim instantiated at the failed "casa" state. -/
theorem C10_witness :
    step casaFailure Event.submit = casaFailure :=
  C10_same_term_noop casaFailure
    (((Reachable.init.step (Event.input (("casa").data))).step Event.submit).step
      (Event.imgError (resolveUrl (("casa").data))))
    (resolveUrl (("casa").data)) (by decide) (by decide)
